import Mathlib

/-!
Verification of the reflective column-to-field mapping engine of the
pgxWrappy repository (package `postgres`).

The Go source is shallowly embedded: a destination struct type is a tree of
field declarations (`FieldDecl`), a concrete struct instance is a `Value`
tree, and a `reflect.Value` reference to a field slot is the access path
(`Path`) of that slot from the root instance.  A Go `map[string]reflect.Value`
is an association list where insertion prepends (so lookup returns the most
recent binding, matching Go's overwrite-on-insert semantics).

Embedded functions (names follow the source):
* `CollectColumnNames` / `GetColumnNames`   (utils file, lines 84-119 / 73-81)
* `CollectFields` / `StructFieldsPointers`  (utils file, lines 33-70 / 10-30)
* `Wrapper.Get`                             (pkg/postgres/wrapper.go, lines 46-73)
* `Wrapper.Select`                          (pkg/postgres/wrapper.go, lines 76-129)
* `collectFields` variant with lazy pointer allocation
                                            (pgx_wrapper.go, lines 652-696)
-/

namespace PgxWrappy

/-- A reference to a field slot: the list of field indices leading from the
root destination instance to the slot (the shallow embedding of a
`reflect.Value` obtained by repeated `v.Field(i)`). -/
abbrev Path := List Nat

mutual

/-- The reflective kind of a struct field, as distinguished by the source:
`reflect.Struct` (a value-embedded nested struct), pointer-to-struct, or any
other kind (a scalar leaf as far as the mapper is concerned). -/
inductive FieldType : Type where
  | scalar : FieldType
  | strct : List FieldDecl → FieldType
  | ptrStruct : List FieldDecl → FieldType

/-- One struct field as seen through `reflect`: declared name, `db` tag
(`""` when absent, `"-"` for the sentinel), whether the field is anonymous
(embedded), whether `CanSet` holds (i.e. the field is exported), and its
reflective kind. -/
inductive FieldDecl : Type where
  | mk : (fname : String) → (tag : String) → (anonymous : Bool) →
         (canSet : Bool) → (typ : FieldType) → FieldDecl

end

def FieldDecl.fname : FieldDecl → String
  | .mk n _ _ _ _ => n

def FieldDecl.tag : FieldDecl → String
  | .mk _ t _ _ _ => t

def FieldDecl.anonymous : FieldDecl → Bool
  | .mk _ _ a _ _ => a

def FieldDecl.canSet : FieldDecl → Bool
  | .mk _ _ _ c _ => c

def FieldDecl.typ : FieldDecl → FieldType
  | .mk _ _ _ _ ty => ty

/-- The effective tag of a field (source lines 102-104 / 53-55):
an empty `db` tag falls back to the declared field name. -/
def effTag (f : FieldDecl) : String :=
  if f.tag = "" then f.fname else f.tag

/-- Column-name construction shared by both walks (source lines 106-111 /
57-62): the enclosing prefix is applied only when nonempty and the field is
not anonymous. -/
def mkColName (pfx : String) (f : FieldDecl) : String :=
  if pfx ≠ "" ∧ f.anonymous = false then pfx ++ "_" ++ effTag f else effTag f

mutual

/-- Embedding of `CollectColumnNames` (source lines 84-119).  The source
appends names to `*columns` while iterating the fields of `v`; here the walk
returns the list of names it emits, in emission order. -/
def CollectColumnNames : List FieldDecl → String → List String
  | [], _ => []
  | f :: rest, pfx => collectColumnNamesField f pfx ++ CollectColumnNames rest pfx

/-- The body of `CollectColumnNames`'s loop for a single field. -/
def collectColumnNamesField : FieldDecl → String → List String
  | .mk n tag anon cs ty, pfx =>
    if cs = false then []
    else if tag = "-" then
      match ty with
      | .strct gs => CollectColumnNames gs pfx
      | _ => []
    else
      let colName := mkColName pfx (.mk n tag anon cs ty)
      match ty with
      | .strct gs => CollectColumnNames gs colName
      | _ => [colName]

end

/-- A Go `map[string]reflect.Value`: association list, most recent insertion
first. -/
abbrev FieldMap := List (String × Path)

/-- `fieldMap[col]` lookup: the most recently inserted binding wins, matching
Go map overwrite semantics. -/
def mapLookup (m : FieldMap) (c : String) : Option Path :=
  (m.find? (fun e => e.1 == c)).map (fun e => e.2)

mutual

/-- Embedding of `CollectFields` (source lines 33-70).  `base` is the path of
the struct value `v` being walked, `i` the index of the next field, `pfx` the
accumulated prefix, `m` the map being filled; the field at index `j` lives at
path `base ++ [j]`. -/
def CollectFields : List FieldDecl → Path → Nat → String → FieldMap → FieldMap
  | [], _, _, _, m => m
  | f :: rest, base, i, pfx, m =>
      CollectFields rest base (i + 1) pfx (collectFieldsField f (base ++ [i]) pfx m)

/-- The body of `CollectFields`'s loop for a single field at path `fpath`. -/
def collectFieldsField : FieldDecl → Path → String → FieldMap → FieldMap
  | .mk n tag anon cs ty, fpath, pfx, m =>
    if cs = false then m
    else if tag = "-" then
      match ty with
      | .strct gs => CollectFields gs fpath 0 pfx m
      | _ => m
    else
      let colName := mkColName pfx (.mk n tag anon cs ty)
      match ty with
      | .strct gs => CollectFields gs fpath 0 colName m
      | _ => (colName, fpath) :: m

end

mutual

/-- Bridge definition: the `(name, path)` pairs that `CollectFields` inserts,
listed in visitation (depth-first declaration) order.  `CollectColumnNames`
is proved to be its first projection and `CollectFields` the map built from
it (theorems `collectFields_eq_pairs` and `collectColumnNames_eq_pairs`). -/
def collectPairs : List FieldDecl → Path → Nat → String → List (String × Path)
  | [], _, _, _ => []
  | f :: rest, base, i, pfx =>
      collectPairsField f (base ++ [i]) pfx ++ collectPairs rest base (i + 1) pfx

/-- Pairs contributed by a single field at path `fpath`. -/
def collectPairsField : FieldDecl → Path → String → List (String × Path)
  | .mk n tag anon cs ty, fpath, pfx =>
    if cs = false then []
    else if tag = "-" then
      match ty with
      | .strct gs => collectPairs gs fpath 0 pfx
      | _ => []
    else
      let colName := mkColName pfx (.mk n tag anon cs ty)
      match ty with
      | .strct gs => collectPairs gs fpath 0 colName
      | _ => [(colName, fpath)]

end

mutual

/-- The map that `CollectFields` builds is exactly the visitation-order pair
list, most recent insertion first, on top of the incoming map. -/
theorem collectFields_eq_pairs :
    ∀ (fs : List FieldDecl) (base : Path) (i : Nat) (pfx : String) (m : FieldMap),
      CollectFields fs base i pfx m = (collectPairs fs base i pfx).reverse ++ m
  | [], _, _, _, _ => rfl
  | f :: rest, base, i, pfx, m => by
    rw [CollectFields, collectPairs,
        collectFieldsField_eq_pairs f (base ++ [i]) pfx m,
        collectFields_eq_pairs rest base (i + 1) pfx, List.reverse_append,
        List.append_assoc]
termination_by fs _ _ _ _ => sizeOf fs

theorem collectFieldsField_eq_pairs :
    ∀ (f : FieldDecl) (fpath : Path) (pfx : String) (m : FieldMap),
      collectFieldsField f fpath pfx m = (collectPairsField f fpath pfx).reverse ++ m
  | .mk n tag anon cs ty, fpath, pfx, m => by
    cases ty with
    | scalar =>
      simp only [collectFieldsField, collectPairsField]
      by_cases hcs : cs = false
      · simp [hcs]
      · by_cases htag : tag = "-" <;> simp [hcs, htag]
    | ptrStruct gs =>
      simp only [collectFieldsField, collectPairsField]
      by_cases hcs : cs = false
      · simp [hcs]
      · by_cases htag : tag = "-" <;> simp [hcs, htag]
    | strct gs =>
      simp only [collectFieldsField, collectPairsField]
      by_cases hcs : cs = false
      · simp [hcs]
      · by_cases htag : tag = "-"
        · simp only [hcs, htag, if_true, if_false, ite_true, ite_false,
            Bool.not_eq_false, eq_self_iff_true]
          simp [hcs, htag]
          exact collectFields_eq_pairs gs fpath 0 pfx m
        · simp [hcs, htag]
          exact collectFields_eq_pairs gs fpath 0 _ m
termination_by f _ _ _ => sizeOf f

end

mutual

/-- The names that `CollectColumnNames` emits are exactly the first
projection of the visitation-order pair list (for any root path and index:
names do not depend on paths). -/
theorem collectColumnNames_eq_pairs :
    ∀ (fs : List FieldDecl) (pfx : String) (base : Path) (i : Nat),
      CollectColumnNames fs pfx = (collectPairs fs base i pfx).map Prod.fst
  | [], _, _, _ => rfl
  | f :: rest, pfx, base, i => by
    rw [CollectColumnNames, collectPairs, List.map_append,
        collectColumnNamesField_eq_pairs f pfx (base ++ [i]),
        collectColumnNames_eq_pairs rest pfx base (i + 1)]
termination_by fs _ _ _ => sizeOf fs

theorem collectColumnNamesField_eq_pairs :
    ∀ (f : FieldDecl) (pfx : String) (fpath : Path),
      collectColumnNamesField f pfx = (collectPairsField f fpath pfx).map Prod.fst
  | .mk n tag anon cs ty, pfx, fpath => by
    cases ty with
    | scalar =>
      simp only [collectColumnNamesField, collectPairsField]
      by_cases hcs : cs = false
      · simp [hcs]
      · by_cases htag : tag = "-" <;> simp [hcs, htag]
    | ptrStruct gs =>
      simp only [collectColumnNamesField, collectPairsField]
      by_cases hcs : cs = false
      · simp [hcs]
      · by_cases htag : tag = "-" <;> simp [hcs, htag]
    | strct gs =>
      simp only [collectColumnNamesField, collectPairsField]
      by_cases hcs : cs = false
      · simp [hcs]
      · by_cases htag : tag = "-"
        · simp [hcs, htag]
          exact collectColumnNames_eq_pairs gs pfx fpath 0
        · simp [hcs, htag]
          exact collectColumnNames_eq_pairs gs _ fpath 0
termination_by f _ _ => sizeOf f

end

/-- The distinct error values the embedded code can return.  Each constructor
corresponds to one error produced in the source (or surfaced unchanged from
the pgx collaborator):
* `destNotPtrToStruct`  — "dest must be a pointer to a struct"
* `inputNotPtrToStruct` — "input must be a pointer to a struct"
* `destNotPtrToSlice`   — "dest must be a pointer to a slice"
* `noMatchingType`      — "slice elements must be structs or pointers to structs"
* `fieldNotFound col`   — "no matching struct field found for column %s"
* `noRows`              — pgx.ErrNoRows, the distinguished empty-result error
* `lenMismatch`         — pgx's Scan error when the number of destinations
                          differs from the number of row values
* `scanFailure`, `queryFailed`, `rowsIterErr` — opaque collaborator errors
  (scan conversion failure, Query failure, Rows.Err), tagged by a code so
  that distinct errors stay distinct. -/
inductive GoError where
  | destNotPtrToStruct
  | inputNotPtrToStruct
  | destNotPtrToSlice
  | noMatchingType
  | fieldNotFound (col : String)
  | noRows
  | lenMismatch
  | scanFailure (code : Nat)
  | queryFailed (code : Nat)
  | rowsIterErr (code : Nat)
deriving DecidableEq

/-- A concrete runtime value tree: a scalar cell (its payload an integer),
a struct instance (one value per field), a nil pointer-to-struct, or a
non-nil pointer-to-struct. -/
inductive Value : Type where
  | int : Int → Value
  | strct : List Value → Value
  | ptrNil : Value
  | ptrVal : List Value → Value

mutual

/-- A value is shaped like a field type.  Scalar and pointer-to-struct
fields are leaves for the primary mapper, so any value is acceptable there;
a value-embedded struct field must hold a struct with matching field list. -/
def alignedT : FieldType → Value → Bool
  | .strct gs, .strct ws => alignedL gs ws
  | .strct _, _ => false
  | _, _ => true

def alignedL : List FieldDecl → List Value → Bool
  | [], [] => true
  | .mk _ _ _ _ ty :: fs, w :: ws => alignedT ty w && alignedL fs ws
  | _, _ => false

end

mutual

/-- The zero value of a field type: `reflect.New` zeroes scalars, recursively
zeroes value-embedded structs, and leaves pointers nil. -/
def zeroValue : FieldType → Value
  | .scalar => .int 0
  | .strct gs => .strct (zeroFields gs)
  | .ptrStruct _ => .ptrNil

def zeroFields : List FieldDecl → List Value
  | [] => []
  | .mk _ _ _ _ ty :: fs => zeroValue ty :: zeroFields fs

end

mutual

/-- Dereference a path: the sub-value at `p`, if the path exists in `v`. -/
def getSub : Value → Path → Option Value
  | v, [] => some v
  | .strct vs, i :: p => getSubL vs i p
  | .ptrVal vs, i :: p => getSubL vs i p
  | .int _, _ :: _ => none
  | .ptrNil, _ :: _ => none

def getSubL : List Value → Nat → Path → Option Value
  | [], _, _ => none
  | v :: _, 0, p => getSub v p
  | _ :: vs, i + 1, p => getSubL vs i p

end

/-- Read the scalar stored at path `p`. -/
def readAt (v : Value) (p : Path) : Option Int :=
  match getSub v p with
  | some (.int x) => some x
  | _ => none

mutual

/-- Write scalar `x` through the field reference `p` (the effect of a
`row.Scan` into the pointer obtained from `fieldVal.Addr()`): the slot at
`p` is replaced, everything else is untouched. -/
def writeAt : Value → Path → Int → Value
  | _, [], x => .int x
  | .strct vs, i :: p, x => .strct (writeAtL vs i p x)
  | .ptrVal vs, i :: p, x => .ptrVal (writeAtL vs i p x)
  | .int z, _ :: _, _ => .int z
  | .ptrNil, _ :: _, _ => .ptrNil

def writeAtL : List Value → Nat → Path → Int → List Value
  | [], _, _, _ => []
  | v :: vs, 0, p, x => writeAt v p x :: vs
  | v :: vs, i + 1, p, x => v :: writeAtL vs i p x

end

/-- Scan a row: write each positional value through the matching reference,
left to right (the order in which `Scan` fills its targets). -/
def writeAll (v : Value) : List (Path × Int) → Value
  | [] => v
  | (p, x) :: rest => writeAll (writeAt v p x) rest

/-- The `interface{}` argument of `Get` / `GetColumnNames` /
`StructFieldsPointers`: either a pointer to a struct instance (its field
declarations and current field values) or anything else. -/
inductive Dest where
  | ptrToStruct : List FieldDecl → List Value → Dest
  | notPtrToStruct : Dest

/-- Embedding of `GetColumnNames` (source lines 73-81): validate the
destination, then walk it with an empty prefix. -/
def GetColumnNames : Dest → Except GoError (List String)
  | .notPtrToStruct => .error .destNotPtrToStruct
  | .ptrToStruct fs _ => .ok (CollectColumnNames fs "")

/-- The lookup loop of `StructFieldsPointers` (source lines 20-27): for each
column in order, take the reference out of the map, failing on the first
column with no entry. -/
def lookupAll (m : FieldMap) : List String → Except GoError (List Path)
  | [] => .ok []
  | c :: cs =>
    match mapLookup m c with
    | none => .error (.fieldNotFound c)
    | some p => (lookupAll m cs).map (fun ps => p :: ps)

/-- Embedding of `StructFieldsPointers` (source lines 10-30): validate the
destination, build the field map with `CollectFields`, then resolve each
requested column. -/
def StructFieldsPointers (dst : Dest) (columns : List String) :
    Except GoError (List Path) :=
  match dst with
  | .notPtrToStruct => .error .inputNotPtrToStruct
  | .ptrToStruct fs _ => lookupAll (CollectFields fs [] 0 "" []) columns

/-! Generic list facts used below. -/

theorem find?_reverse_eq_getLast?_filter {α : Type} (l : List α) (p : α → Bool) :
    l.reverse.find? p = (l.filter p).getLast? := by
  induction l using List.reverseRecOn with
  | nil => rfl
  | append_singleton l a ih =>
    rw [List.reverse_append, List.filter_append]
    simp only [List.reverse_cons, List.reverse_nil, List.nil_append, List.singleton_append,
      List.find?_cons, List.filter_cons, List.filter_nil]
    cases hpa : p a with
    | true =>
      simp only [hpa, cond_true, if_true, ite_true, List.append_nil]
      rw [List.getLast?_append_cons]
      rfl
    | false =>
      simp only [hpa, cond_false, Bool.false_eq_true, if_false, ite_false, List.append_nil]
      exact ih

/-! Facts about the built field map and the lookup loop. -/

/-- The map built by `CollectFields` from an empty map resolves a column to
the reference inserted by the **last** field (in depth-first declaration
order) that computed that column name — Go map overwrite semantics. -/
theorem mapLookup_collectFields (fs : List FieldDecl) (c : String) :
    mapLookup (CollectFields fs [] 0 "" []) c =
      (((collectPairs fs [] 0 "").filter (fun e => e.1 == c)).getLast?).map
        (fun e => e.2) := by
  rw [mapLookup, collectFields_eq_pairs, List.append_nil,
    find?_reverse_eq_getLast?_filter]

theorem mapLookup_isSome_of_mem_names (fs : List FieldDecl) (c : String)
    (h : c ∈ CollectColumnNames fs "") :
    (mapLookup (CollectFields fs [] 0 "" []) c).isSome := by
  rw [collectColumnNames_eq_pairs fs "" [] 0] at h
  obtain ⟨e, he, hfst⟩ := List.mem_map.mp h
  rw [mapLookup, collectFields_eq_pairs, List.append_nil]
  have : (List.find? (fun e => e.1 == c) (collectPairs fs [] 0 "").reverse).isSome := by
    rw [List.find?_isSome]
    exact ⟨e, List.mem_reverse.mpr he, by rw [hfst] at *; exact beq_self_eq_true c⟩
  obtain ⟨x, hx⟩ := Option.isSome_iff_exists.mp this
  simp [hx]

theorem mapLookup_mem_pairs (fs : List FieldDecl) (c : String) (p : Path)
    (h : mapLookup (CollectFields fs [] 0 "" []) c = some p) :
    (c, p) ∈ collectPairs fs [] 0 "" := by
  rw [mapLookup, collectFields_eq_pairs, List.append_nil] at h
  obtain ⟨e, he, hsnd⟩ := Option.map_eq_some'.mp h
  have hmem := List.mem_of_find?_eq_some he
  have hpred := List.find?_some he
  have hfst : e.1 = c := by simpa using hpred
  have : e = (c, p) := by
    cases e
    simp only at hfst hsnd
    rw [hfst, hsnd]
  rw [this] at hmem
  exact List.mem_reverse.mp hmem

theorem lookupAll_ok_of_all_some (m : FieldMap) (cols : List String)
    (h : ∀ c ∈ cols, (mapLookup m c).isSome) :
    ∃ ps, lookupAll m cols = .ok ps ∧ ps.length = cols.length := by
  induction cols with
  | nil => exact ⟨[], rfl, rfl⟩
  | cons c cs ih =>
    have hc := h c (List.mem_cons_self c cs)
    obtain ⟨p, hp⟩ := Option.isSome_iff_exists.mp hc
    obtain ⟨ps, hps, hlen⟩ := ih (fun d hd => h d (List.mem_cons_of_mem _ hd))
    refine ⟨p :: ps, ?_, by simp [hlen]⟩
    simp [lookupAll, hp, hps, Except.map]

/-- Each reference returned by the lookup loop is the map's entry for the
column at the same position. -/
theorem lookupAll_spec (m : FieldMap) (cols : List String) (ps : List Path)
    (h : lookupAll m cols = .ok ps) :
    ∀ (k : Nat) (c : String), cols[k]? = some c →
      ∃ p, mapLookup m c = some p ∧ ps[k]? = some p := by
  induction cols generalizing ps with
  | nil =>
    intro k c hk
    simp at hk
  | cons c0 cs ih =>
    intro k c hk
    rw [lookupAll] at h
    cases hm : mapLookup m c0 with
    | none => rw [hm] at h; exact absurd h (by simp)
    | some p0 =>
      rw [hm] at h
      cases hrest : lookupAll m cs with
      | error e => rw [hrest] at h; exact absurd h (by simp [Except.map])
      | ok ps' =>
        rw [hrest] at h
        have hps : ps = p0 :: ps' := by
          simpa [Except.map] using h.symm
        subst hps
        cases k with
        | zero =>
          simp only [List.getElem?_cons_zero, Option.some.injEq] at hk
          exact ⟨p0, by rw [← hk]; exact hm, by simp⟩
        | succ k' =>
          simp only [List.getElem?_cons_succ] at hk
          obtain ⟨p, hp, hpk⟩ := ih ps' hrest k' c hk
          exact ⟨p, hp, by simpa using hpk⟩

theorem lookupAll_mem (m : FieldMap) (cols : List String) (ps : List Path)
    (h : lookupAll m cols = .ok ps) :
    ∀ p ∈ ps, ∃ c ∈ cols, mapLookup m c = some p := by
  induction cols generalizing ps with
  | nil =>
    cases h
    intro p hp
    simp at hp
  | cons c0 cs ih =>
    intro p hp
    rw [lookupAll] at h
    cases hm : mapLookup m c0 with
    | none => rw [hm] at h; exact absurd h (by simp)
    | some p0 =>
      rw [hm] at h
      cases hrest : lookupAll m cs with
      | error e => rw [hrest] at h; exact absurd h (by simp [Except.map])
      | ok ps' =>
        rw [hrest] at h
        have hps : ps = p0 :: ps' := by simpa [Except.map] using h.symm
        subst hps
        rcases List.mem_cons.mp hp with hp0 | hp'
        · exact ⟨c0, List.mem_cons_self c0 cs, by rw [hp0]; exact hm⟩
        · obtain ⟨c, hc, hcl⟩ := ih ps' hrest p hp'
          exact ⟨c, List.mem_cons_of_mem _ hc, hcl⟩

/-! Path arithmetic for `getSub`, and alignment facts. -/

mutual

theorem getSub_append : ∀ (v : Value) (p q : Path),
    getSub v (p ++ q) = (getSub v p).bind (fun w => getSub w q)
  | _, [], _ => by simp [getSub]
  | .strct vs, i :: p, q => by
    simp only [List.cons_append, getSub]
    exact getSubL_append vs i p q
  | .ptrVal vs, i :: p, q => by
    simp only [List.cons_append, getSub]
    exact getSubL_append vs i p q
  | .int _, _ :: _, _ => by simp [getSub]
  | .ptrNil, _ :: _, _ => by simp [getSub]
termination_by v _ _ => sizeOf v

theorem getSubL_append : ∀ (vs : List Value) (i : Nat) (p q : Path),
    getSubL vs i (p ++ q) = (getSubL vs i p).bind (fun w => getSub w q)
  | [], _, _, _ => by simp [getSubL]
  | v :: _, 0, p, q => getSub_append v p q
  | _ :: vs, i + 1, p, q => getSubL_append vs i p q
termination_by vs _ _ _ => sizeOf vs

end

theorem getSubL_nil (vs : List Value) (i : Nat) : getSubL vs i [] = vs[i]? := by
  induction vs generalizing i with
  | nil => simp [getSubL]
  | cons v vs ih =>
    cases i with
    | zero => simp [getSubL, getSub]
    | succ i => simp [getSubL, ih]

theorem alignedL_getElem (gs : List FieldDecl) (ws : List Value)
    (h : alignedL gs ws = true) :
    ∀ (k : Nat) (d : FieldDecl), gs[k]? = some d →
      ∃ w, ws[k]? = some w ∧ alignedT d.typ w = true := by
  induction gs generalizing ws with
  | nil =>
    intro k d hk
    simp at hk
  | cons g gs ih =>
    cases g with
    | mk n tag anon cs ty =>
      cases ws with
      | nil => simp [alignedL] at h
      | cons w ws =>
        rw [alignedL, Bool.and_eq_true] at h
        intro k d hk
        cases k with
        | zero =>
          simp only [List.getElem?_cons_zero, Option.some.injEq] at hk
          exact ⟨w, by simp, by rw [← hk]; exact h.1⟩
        | succ k =>
          simp only [List.getElem?_cons_succ] at hk
          obtain ⟨w', hw', hal⟩ := ih ws h.2 k d hk
          exact ⟨w', by simpa using hw', hal⟩

mutual

/-- Every reference that the walk inserts into the field map is a live path
into the (aligned) destination instance. -/
theorem collectPairs_valid :
    ∀ (fs : List FieldDecl) (base : Path) (i : Nat) (pfx : String) (R : Value),
      (∀ (k : Nat) (d : FieldDecl), fs[k]? = some d →
        ∃ w, getSub R (base ++ [i + k]) = some w ∧ alignedT d.typ w = true) →
      ∀ e ∈ collectPairs fs base i pfx, (getSub R e.2).isSome
  | [], _, _, _, _ => by
    intro _ e he
    simp [collectPairs] at he
  | f :: rest, base, i, pfx, R => by
    intro H e he
    rw [collectPairs, List.mem_append] at he
    rcases he with he | he
    · obtain ⟨w, hw, hal⟩ := H 0 f (by simp)
      rw [Nat.add_zero] at hw
      exact collectPairsField_valid f (base ++ [i]) pfx R w hw hal e he
    · refine collectPairs_valid rest base (i + 1) pfx R ?_ e he
      intro k d hk
      obtain ⟨w, hw, hal⟩ := H (k + 1) d (by simpa using hk)
      refine ⟨w, ?_, hal⟩
      have : i + 1 + k = i + (k + 1) := by omega
      rw [this]
      exact hw
termination_by fs _ _ _ _ => sizeOf fs

theorem collectPairsField_valid :
    ∀ (f : FieldDecl) (fpath : Path) (pfx : String) (R : Value) (w : Value),
      getSub R fpath = some w → alignedT f.typ w = true →
      ∀ e ∈ collectPairsField f fpath pfx, (getSub R e.2).isSome
  | .mk n tag anon cs ty, fpath, pfx, R, w => by
    intro hw hal e he
    simp only [FieldDecl.typ] at hal
    cases ty with
    | scalar =>
      simp only [collectPairsField] at he
      by_cases hcs : cs = false
      · simp [hcs] at he
      · by_cases htag : tag = "-"
        · simp [hcs, htag] at he
        · simp [hcs, htag] at he
          subst he
          simp [hw]
    | ptrStruct gs =>
      simp only [collectPairsField] at he
      by_cases hcs : cs = false
      · simp [hcs] at he
      · by_cases htag : tag = "-"
        · simp [hcs, htag] at he
        · simp [hcs, htag] at he
          subst he
          simp [hw]
    | strct gs =>
      cases w with
      | int _ => simp [alignedT] at hal
      | ptrNil => simp [alignedT] at hal
      | ptrVal _ => simp [alignedT] at hal
      | strct ws =>
        simp only [alignedT] at hal
        have key : ∀ (pfx2 : String), ∀ e2 ∈ collectPairs gs fpath 0 pfx2,
            (getSub R e2.2).isSome := by
          intro pfx2 e2 he2
          refine collectPairs_valid gs fpath 0 pfx2 R ?_ e2 he2
          intro k d hk
          obtain ⟨w', hw', hal'⟩ := alignedL_getElem gs ws hal k d hk
          refine ⟨w', ?_, hal'⟩
          rw [getSub_append, hw]
          simp only [Nat.zero_add]
          show getSub (Value.strct ws) [k] = some w'
          rw [show getSub (Value.strct ws) [k] = getSubL ws k [] from rfl, getSubL_nil]
          exact hw'
        simp only [collectPairsField] at he
        by_cases hcs : cs = false
        · simp [hcs] at he
        · by_cases htag : tag = "-"
          · simp only [if_neg hcs, if_pos htag] at he
            exact key pfx e he
          · simp only [if_neg hcs, if_neg htag] at he
            exact key _ e he
termination_by f _ _ _ _ => sizeOf f

end

mutual

theorem alignedT_zeroValue : ∀ (ty : FieldType), alignedT ty (zeroValue ty) = true
  | .scalar => rfl
  | .ptrStruct _ => rfl
  | .strct gs => by
    simp only [zeroValue, alignedT]
    exact alignedL_zeroFields gs
termination_by ty => sizeOf ty

theorem alignedL_zeroFields : ∀ (gs : List FieldDecl), alignedL gs (zeroFields gs) = true
  | [] => rfl
  | .mk _ _ _ _ ty :: fs => by
    simp only [zeroFields, alignedL, Bool.and_eq_true]
    exact ⟨alignedT_zeroValue ty, alignedL_zeroFields fs⟩
termination_by gs => sizeOf gs

end

/-- A destination struct type used in witnesses: the README's `User` with a
tagged nested `Address`. -/
def exUser : List FieldDecl :=
  [.mk "ID" "id" false true .scalar,
   .mk "Name" "name" false true .scalar,
   .mk "Address" "address" false true
     (.strct [.mk "Street" "street" false true .scalar,
              .mk "City" "city" false true .scalar])]

/-- A zero instance of `exUser`. -/
def exUserV : List Value := [.int 0, .int 0, .strct [.int 0, .int 0]]

/-- C1: for every destination accepted by the deriver (a pointer to a
struct), resolving exactly the column names produced by `GetColumnNames`
through `StructFieldsPointers` never fails with FieldNotFound: it returns
one live (writable) field reference per derived name. -/
theorem structFieldsPointers_of_getColumnNames_ok
    (fs : List FieldDecl) (vs : List Value) (h : alignedL fs vs = true) :
    ∃ cols ps,
      GetColumnNames (.ptrToStruct fs vs) = .ok cols ∧
      StructFieldsPointers (.ptrToStruct fs vs) cols = .ok ps ∧
      ps.length = cols.length ∧
      ∀ p ∈ ps, (getSub (.strct vs) p).isSome := by
  have hsome : ∀ c ∈ CollectColumnNames fs "",
      (mapLookup (CollectFields fs [] 0 "" []) c).isSome :=
    fun c hc => mapLookup_isSome_of_mem_names fs c hc
  obtain ⟨ps, hps, hlen⟩ := lookupAll_ok_of_all_some _ _ hsome
  refine ⟨CollectColumnNames fs "", ps, rfl, hps, hlen, ?_⟩
  intro p hp
  obtain ⟨c, _, hcp⟩ := lookupAll_mem _ _ _ hps p hp
  have hpair := mapLookup_mem_pairs fs c p hcp
  refine collectPairs_valid fs [] 0 "" (.strct vs) ?_ (c, p) hpair
  intro k d hk
  obtain ⟨w, hw, hal⟩ := alignedL_getElem fs vs h k d hk
  refine ⟨w, ?_, hal⟩
  simp only [List.nil_append, Nat.zero_add]
  show getSubL vs k [] = some w
  rw [getSubL_nil]
  exact hw

/-- Witness for C1 at the concrete `exUser` destination. -/
theorem structFieldsPointers_of_getColumnNames_ok_witness :
    ∃ cols ps,
      GetColumnNames (.ptrToStruct exUser exUserV) = .ok cols ∧
      StructFieldsPointers (.ptrToStruct exUser exUserV) cols = .ok ps ∧
      ps.length = cols.length ∧
      ∀ p ∈ ps, (getSub (.strct exUserV) p).isSome :=
  structFieldsPointers_of_getColumnNames_ok exUser exUserV (by decide)

/-! Distribution of the walks over list append, and the `"-"` sentinel. -/

theorem collectColumnNames_append (xs ys : List FieldDecl) (pfx : String) :
    CollectColumnNames (xs ++ ys) pfx =
      CollectColumnNames xs pfx ++ CollectColumnNames ys pfx := by
  induction xs with
  | nil => simp [CollectColumnNames]
  | cons f rest ih => simp [CollectColumnNames, ih]

theorem collectFields_append (xs ys : List FieldDecl) (base : Path) (i : Nat)
    (pfx : String) (m : FieldMap) :
    CollectFields (xs ++ ys) base i pfx m =
      CollectFields ys base (i + xs.length) pfx (CollectFields xs base i pfx m) := by
  induction xs generalizing i m with
  | nil => simp [CollectFields]
  | cons f rest ih =>
    simp only [List.cons_append, CollectFields, List.length_cons, List.append_eq]
    rw [ih]
    have hidx : i + 1 + rest.length = i + (rest.length + 1) := by omega
    rw [hidx]

/-- C2: a field tagged `"-"`: if it is a value-embedded nested struct, both
walks splice its children in at its position with the *unchanged* enclosing
prefix; if it is a scalar, it contributes no column name and no map entry. -/
theorem dash_sentinel_splices_nested_and_excludes_scalar :
    (∀ (pre post gs : List FieldDecl) (n : String) (anon : Bool) (pfx : String),
      CollectColumnNames (pre ++ FieldDecl.mk n "-" anon true (.strct gs) :: post) pfx =
        CollectColumnNames pre pfx ++ CollectColumnNames gs pfx ++
          CollectColumnNames post pfx) ∧
    (∀ (pre post : List FieldDecl) (n : String) (anon : Bool) (pfx : String),
      CollectColumnNames (pre ++ FieldDecl.mk n "-" anon true .scalar :: post) pfx =
        CollectColumnNames pre pfx ++ CollectColumnNames post pfx) ∧
    (∀ (pre post gs : List FieldDecl) (n : String) (anon : Bool) (pfx : String)
        (base : Path) (i : Nat) (m : FieldMap),
      CollectFields (pre ++ FieldDecl.mk n "-" anon true (.strct gs) :: post) base i pfx m =
        CollectFields post base (i + pre.length + 1) pfx
          (CollectFields gs (base ++ [i + pre.length]) 0 pfx
            (CollectFields pre base i pfx m))) ∧
    (∀ (pre post : List FieldDecl) (n : String) (anon : Bool) (pfx : String)
        (base : Path) (i : Nat) (m : FieldMap),
      CollectFields (pre ++ FieldDecl.mk n "-" anon true .scalar :: post) base i pfx m =
        CollectFields post base (i + pre.length + 1) pfx
          (CollectFields pre base i pfx m)) := by
  refine ⟨?_, ?_, ?_, ?_⟩
  · intro pre post gs n anon pfx
    rw [collectColumnNames_append]
    simp [CollectColumnNames, collectColumnNamesField]
  · intro pre post n anon pfx
    rw [collectColumnNames_append]
    simp [CollectColumnNames, collectColumnNamesField]
  · intro pre post gs n anon pfx base i m
    rw [collectFields_append]
    simp [CollectFields, collectFieldsField]
  · intro pre post n anon pfx base i m
    rw [collectFields_append]
    simp [CollectFields, collectFieldsField]

/-- C3 counterexample: an embedded (anonymous, untagged) `Base` struct field
prefixes its descendant's column name with its own name segment (`Base_id`),
so the claim that an embedded field contributes no prefix segment to its
descendants fails on the code. -/
theorem embedded_field_prefix_cex :
    GetColumnNames (.ptrToStruct
      [FieldDecl.mk "Base" "" true true
        (.strct [FieldDecl.mk "ID" "id" false true .scalar])] [.strct [.int 0]]) =
      .ok ["Base_id"] ∧ "Base_id" ≠ "id" :=
  ⟨rfl, by decide⟩

/-- C3 amended: an embedded (anonymous) nested-record field *ignores the
enclosing prefix* — its descendants' names are built from the embedded
field's own tag (or declared name when untagged) alone, at any depth —
whereas a non-anonymous nested-record field under a nonempty prefix prefixes
its descendants with the enclosing prefix extended by its own tag (both
walks agree). -/
theorem embedded_field_resets_enclosing_prefix
    (n tag : String) (gs : List FieldDecl) (pfx : String) (hdash : tag ≠ "-") :
    collectColumnNamesField (.mk n tag true true (.strct gs)) pfx =
      CollectColumnNames gs (if tag = "" then n else tag) ∧
    (∀ (fpath : Path) (m : FieldMap),
      collectFieldsField (.mk n tag true true (.strct gs)) fpath pfx m =
        CollectFields gs fpath 0 (if tag = "" then n else tag) m) ∧
    (pfx ≠ "" →
      collectColumnNamesField (.mk n tag false true (.strct gs)) pfx =
        CollectColumnNames gs (pfx ++ "_" ++ (if tag = "" then n else tag))) ∧
    (pfx ≠ "" → ∀ (fpath : Path) (m : FieldMap),
      collectFieldsField (.mk n tag false true (.strct gs)) fpath pfx m =
        CollectFields gs fpath 0 (pfx ++ "_" ++ (if tag = "" then n else tag)) m) := by
  refine ⟨?_, ?_, ?_, ?_⟩
  · simp [collectColumnNamesField, hdash, mkColName, effTag, FieldDecl.anonymous,
      FieldDecl.tag, FieldDecl.fname]
  · intro fpath m
    simp [collectFieldsField, hdash, mkColName, effTag, FieldDecl.anonymous,
      FieldDecl.tag, FieldDecl.fname]
  · intro hpfx
    simp [collectColumnNamesField, hdash, hpfx, mkColName, effTag, FieldDecl.anonymous,
      FieldDecl.tag, FieldDecl.fname]
  · intro hpfx fpath m
    simp [collectFieldsField, hdash, hpfx, mkColName, effTag, FieldDecl.anonymous,
      FieldDecl.tag, FieldDecl.fname]

/-- Witness for the amended C3 at a concrete embedded field under prefix
`"outer"`. -/
theorem embedded_field_resets_enclosing_prefix_witness :
    collectColumnNamesField
        (.mk "Base" "" true true
          (.strct [FieldDecl.mk "ID" "id" false true .scalar])) "outer" =
      CollectColumnNames [FieldDecl.mk "ID" "id" false true .scalar]
        (if "" = "" then "Base" else "") ∧
    (∀ (fpath : Path) (m : FieldMap),
      collectFieldsField
          (.mk "Base" "" true true
            (.strct [FieldDecl.mk "ID" "id" false true .scalar])) fpath "outer" m =
        CollectFields [FieldDecl.mk "ID" "id" false true .scalar] fpath 0
          (if "" = "" then "Base" else "") m) ∧
    ("outer" ≠ "" →
      collectColumnNamesField
          (.mk "Base" "" false true
            (.strct [FieldDecl.mk "ID" "id" false true .scalar])) "outer" =
        CollectColumnNames [FieldDecl.mk "ID" "id" false true .scalar]
          ("outer" ++ "_" ++ (if "" = "" then "Base" else ""))) ∧
    ("outer" ≠ "" → ∀ (fpath : Path) (m : FieldMap),
      collectFieldsField
          (.mk "Base" "" false true
            (.strct [FieldDecl.mk "ID" "id" false true .scalar])) fpath "outer" m =
        CollectFields [FieldDecl.mk "ID" "id" false true .scalar] fpath 0
          ("outer" ++ "_" ++ (if "" = "" then "Base" else "")) m) :=
  embedded_field_resets_enclosing_prefix "Base" ""
    [FieldDecl.mk "ID" "id" false true .scalar] "outer" (by decide)

/-! The paths in the field map form an antichain: no inserted reference is a
prefix of another.  This is what makes scans through distinct references
non-interfering. -/

/-- Two paths, neither a prefix of the other: writes through one cannot be
seen through the other. -/
def PathIncomp (p q : Path) : Prop := ¬ p <+: q ∧ ¬ q <+: p

theorem not_prefix_of_ne_head (base : Path) (i j : Nat) (t₁ t₂ : Path)
    (hij : i ≠ j) : ¬ (base ++ i :: t₁) <+: (base ++ j :: t₂) := by
  intro h
  rw [List.prefix_append_right_inj] at h
  rcases List.cons_prefix_cons.mp h with ⟨hhead, _⟩
  exact hij hhead

theorem pathIncomp_of_ne_branch (base : Path) (i j : Nat) (p q : Path)
    (hij : i ≠ j) (hp : (base ++ [i]) <+: p) (hq : (base ++ [j]) <+: q) :
    PathIncomp p q := by
  obtain ⟨t₁, rfl⟩ := hp
  obtain ⟨t₂, rfl⟩ := hq
  simp only [List.append_assoc, List.singleton_append] at *
  exact ⟨not_prefix_of_ne_head base i j t₁ t₂ hij,
         not_prefix_of_ne_head base j i t₂ t₁ (fun h => hij h.symm)⟩

mutual

theorem collectPairs_root :
    ∀ (fs : List FieldDecl) (base : Path) (i : Nat) (pfx : String),
      ∀ e ∈ collectPairs fs base i pfx, ∃ j, i ≤ j ∧ (base ++ [j]) <+: e.2
  | [], _, _, _ => by
    intro e he
    simp [collectPairs] at he
  | f :: rest, base, i, pfx => by
    intro e he
    rw [collectPairs, List.mem_append] at he
    rcases he with he | he
    · exact ⟨i, Nat.le_refl i, collectPairsField_root f (base ++ [i]) pfx e he⟩
    · obtain ⟨j, hij, hj⟩ := collectPairs_root rest base (i + 1) pfx e he
      exact ⟨j, by omega, hj⟩
termination_by fs _ _ _ => sizeOf fs

theorem collectPairsField_root :
    ∀ (f : FieldDecl) (fpath : Path) (pfx : String),
      ∀ e ∈ collectPairsField f fpath pfx, fpath <+: e.2
  | .mk n tag anon cs ty, fpath, pfx => by
    intro e he
    cases ty with
    | scalar =>
      simp only [collectPairsField] at he
      by_cases hcs : cs = false
      · simp [hcs] at he
      · by_cases htag : tag = "-"
        · simp [hcs, htag] at he
        · simp [hcs, htag] at he
          simp [he]
    | ptrStruct gs =>
      simp only [collectPairsField] at he
      by_cases hcs : cs = false
      · simp [hcs] at he
      · by_cases htag : tag = "-"
        · simp [hcs, htag] at he
        · simp [hcs, htag] at he
          simp [he]
    | strct gs =>
      simp only [collectPairsField] at he
      have inner : ∀ (pfx2 : String), e ∈ collectPairs gs fpath 0 pfx2 →
          fpath <+: e.2 := by
        intro pfx2 he2
        obtain ⟨j, _, hj⟩ := collectPairs_root gs fpath 0 pfx2 e he2
        exact List.IsPrefix.trans ⟨[j], rfl⟩ hj
      by_cases hcs : cs = false
      · simp [hcs] at he
      · by_cases htag : tag = "-"
        · simp only [if_neg hcs, if_pos htag] at he
          exact inner pfx he
        · simp only [if_neg hcs, if_neg htag] at he
          exact inner _ he
termination_by f _ _ => sizeOf f

end

mutual

theorem collectPairs_antichain :
    ∀ (fs : List FieldDecl) (base : Path) (i : Nat) (pfx : String),
      (collectPairs fs base i pfx).Pairwise (fun e₁ e₂ => PathIncomp e₁.2 e₂.2)
  | [], _, _, _ => by simp [collectPairs]
  | f :: rest, base, i, pfx => by
    rw [collectPairs, List.pairwise_append]
    refine ⟨collectPairsField_antichain f (base ++ [i]) pfx,
            collectPairs_antichain rest base (i + 1) pfx, ?_⟩
    intro e₁ he₁ e₂ he₂
    have h₁ := collectPairsField_root f (base ++ [i]) pfx e₁ he₁
    obtain ⟨j, hij, h₂⟩ := collectPairs_root rest base (i + 1) pfx e₂ he₂
    exact pathIncomp_of_ne_branch base i j e₁.2 e₂.2 (by omega) h₁ h₂
termination_by fs _ _ _ => sizeOf fs

theorem collectPairsField_antichain :
    ∀ (f : FieldDecl) (fpath : Path) (pfx : String),
      (collectPairsField f fpath pfx).Pairwise (fun e₁ e₂ => PathIncomp e₁.2 e₂.2)
  | .mk n tag anon cs ty, fpath, pfx => by
    cases ty with
    | scalar =>
      simp only [collectPairsField]
      by_cases hcs : cs = false
      · simp [hcs]
      · by_cases htag : tag = "-" <;> simp [hcs, htag]
    | ptrStruct gs =>
      simp only [collectPairsField]
      by_cases hcs : cs = false
      · simp [hcs]
      · by_cases htag : tag = "-" <;> simp [hcs, htag]
    | strct gs =>
      simp only [collectPairsField]
      by_cases hcs : cs = false
      · simp [hcs]
      · by_cases htag : tag = "-"
        · simp only [if_neg hcs, if_pos htag]
          exact collectPairs_antichain gs fpath 0 pfx
        · simp only [if_neg hcs, if_neg htag]
          exact collectPairs_antichain gs fpath 0 _
termination_by f _ _ => sizeOf f

end

/-! Reading and writing through references. -/

theorem writeAt_nil (v : Value) (x : Int) : writeAt v [] x = .int x := by
  cases v <;> rfl

theorem getSubL_writeAtL_other (vs : List Value) (i j : Nat) (p : Path) (x : Int)
    (q : Path) (hij : j ≠ i) :
    getSubL (writeAtL vs i p x) j q = getSubL vs j q := by
  induction vs generalizing i j with
  | nil => simp [writeAtL]
  | cons v vs ih =>
    cases i with
    | zero =>
      cases j with
      | zero => exact absurd rfl hij
      | succ j => simp [writeAtL, getSubL]
    | succ i =>
      cases j with
      | zero => simp [writeAtL, getSubL]
      | succ j =>
        simp only [writeAtL, getSubL]
        exact ih i j (fun h => hij (by rw [h]))

mutual

/-- Writing through a live reference makes the written scalar readable at
that reference. -/
theorem getSub_writeAt :
    ∀ (v : Value) (p : Path) (x : Int) (w : Value), getSub v p = some w →
      getSub (writeAt v p x) p = some (.int x)
  | v, [], x, _ => fun _ => by rw [writeAt_nil]; rfl
  | .strct vs, i :: p, x, w => fun h => by
    simp only [getSub] at h
    simp only [writeAt, getSub]
    exact getSubL_writeAtL vs i p x w h
  | .ptrVal vs, i :: p, x, w => fun h => by
    simp only [getSub] at h
    simp only [writeAt, getSub]
    exact getSubL_writeAtL vs i p x w h
  | .int _, _ :: _, _, _ => fun h => by simp [getSub] at h
  | .ptrNil, _ :: _, _, _ => fun h => by simp [getSub] at h
termination_by v _ _ _ => sizeOf v

theorem getSubL_writeAtL :
    ∀ (vs : List Value) (i : Nat) (p : Path) (x : Int) (w : Value),
      getSubL vs i p = some w →
      getSubL (writeAtL vs i p x) i p = some (.int x)
  | [], _, _, _, _ => fun h => by simp [getSubL] at h
  | v :: _, 0, p, x, w => fun h => getSub_writeAt v p x w h
  | _ :: vs, i + 1, p, x, w => fun h => getSubL_writeAtL vs i p x w h
termination_by vs _ _ _ _ => sizeOf vs

end

mutual

/-- Frame rule: a write through `p` is invisible at any prefix-incomparable
path `q`. -/
theorem getSub_writeAt_frame :
    ∀ (v : Value) (p : Path) (x : Int) (q : Path),
      ¬ p <+: q → ¬ q <+: p → getSub (writeAt v p x) q = getSub v q
  | _, [], _, q => fun hpq _ => absurd List.nil_prefix hpq
  | v, i :: p, x, [] => fun _ hqp => absurd List.nil_prefix hqp
  | .int z, i :: p, x, j :: q => fun _ _ => rfl
  | .ptrNil, i :: p, x, j :: q => fun _ _ => rfl
  | .strct vs, i :: p, x, j :: q => fun hpq hqp => by
    simp only [writeAt, getSub]
    by_cases hij : j = i
    · subst hij
      have hp : ¬ p <+: q := fun h => hpq (List.cons_prefix_cons.mpr ⟨rfl, h⟩)
      have hq : ¬ q <+: p := fun h => hqp (List.cons_prefix_cons.mpr ⟨rfl, h⟩)
      exact getSubL_writeAtL_frame vs j p x q hp hq
    · exact getSubL_writeAtL_other vs i j p x q hij
  | .ptrVal vs, i :: p, x, j :: q => fun hpq hqp => by
    simp only [writeAt, getSub]
    by_cases hij : j = i
    · subst hij
      have hp : ¬ p <+: q := fun h => hpq (List.cons_prefix_cons.mpr ⟨rfl, h⟩)
      have hq : ¬ q <+: p := fun h => hqp (List.cons_prefix_cons.mpr ⟨rfl, h⟩)
      exact getSubL_writeAtL_frame vs j p x q hp hq
    · exact getSubL_writeAtL_other vs i j p x q hij
termination_by v _ _ _ => sizeOf v

theorem getSubL_writeAtL_frame :
    ∀ (vs : List Value) (i : Nat) (p : Path) (x : Int) (q : Path),
      ¬ p <+: q → ¬ q <+: p → getSubL (writeAtL vs i p x) i q = getSubL vs i q
  | [], _, _, _, _ => fun _ _ => rfl
  | v :: _, 0, p, x, q => fun hpq hqp => getSub_writeAt_frame v p x q hpq hqp
  | _ :: vs, i + 1, p, x, q => fun hpq hqp => getSubL_writeAtL_frame vs i p x q hpq hqp
termination_by vs _ _ _ _ => sizeOf vs

end

/-- A scan whose references are all prefix-incomparable with `q` leaves the
slot at `q` untouched. -/
theorem writeAll_frame (l : List (Path × Int)) (v : Value) (q : Path)
    (h : ∀ e ∈ l, PathIncomp e.1 q) :
    getSub (writeAll v l) q = getSub v q := by
  induction l generalizing v with
  | nil => rfl
  | cons e rest ih =>
    cases e with
    | mk p x =>
      rw [writeAll, ih _ (fun e he => h e (List.mem_cons_of_mem _ he))]
      have hh := h (p, x) (List.mem_cons_self _ _)
      exact getSub_writeAt_frame v p x q hh.1 hh.2

/-- A scan writes the value at position `k` into the reference at position
`k`, provided every other reference is prefix-incomparable with it and the
reference is live. -/
theorem writeAll_target (l : List (Path × Int)) (v : Value) (k : Nat)
    (p : Path) (x : Int) (hk : l[k]? = some (p, x))
    (hother : ∀ (j : Nat) (e : Path × Int), j ≠ k → l[j]? = some e → PathIncomp e.1 p)
    (hlive : (getSub v p).isSome) :
    getSub (writeAll v l) p = some (.int x) := by
  induction l generalizing v k with
  | nil => simp at hk
  | cons e rest ih =>
    cases e with
    | mk p0 x0 =>
      cases k with
      | zero =>
        simp only [List.getElem?_cons_zero, Option.some.injEq, Prod.mk.injEq] at hk
        obtain ⟨hp0, hx0⟩ := hk
        rw [writeAll]
        have hframe : ∀ e ∈ rest, PathIncomp e.1 p := by
          intro e he
          obtain ⟨j, hj⟩ := List.mem_iff_getElem?.mp he
          exact hother (j + 1) e (by omega) (by simpa using hj)
        rw [writeAll_frame rest _ p hframe, hp0, hx0]
        obtain ⟨w, hw⟩ := Option.isSome_iff_exists.mp hlive
        exact getSub_writeAt v p x w hw
      | succ k =>
        simp only [List.getElem?_cons_succ] at hk
        rw [writeAll]
        have hhead : PathIncomp p0 p :=
          hother 0 (p0, x0) (by omega) (by simp)
        have hlive' : (getSub (writeAt v p0 x0) p).isSome := by
          rw [getSub_writeAt_frame v p0 x0 p hhead.1 hhead.2]
          exact hlive
        refine ih (writeAt v p0 x0) k hk ?_ hlive'
        intro j e hj hje
        exact hother (j + 1) e (by omega) (by simpa using hje)

theorem zip_getElem? {α β : Type} (as : List α) (bs : List β) (k : Nat)
    (a : α) (b : β) (ha : as[k]? = some a) (hb : bs[k]? = some b) :
    (as.zip bs)[k]? = some (a, b) := by
  induction as generalizing bs k with
  | nil => simp at ha
  | cons x xs ih =>
    cases bs with
    | nil => simp at hb
    | cons y ys =>
      cases k with
      | zero => simp_all
      | succ k => simp_all [List.zip_cons_cons]

/-- A reference resolved from the field map is live in any aligned
destination instance. -/
theorem mapLookup_live (fs : List FieldDecl) (vs : List Value)
    (h : alignedL fs vs = true) (c : String) (p : Path)
    (hcp : mapLookup (CollectFields fs [] 0 "" []) c = some p) :
    (getSub (.strct vs) p).isSome := by
  have hpair := mapLookup_mem_pairs fs c p hcp
  refine collectPairs_valid fs [] 0 "" (.strct vs) ?_ (c, p) hpair
  intro k d hk
  obtain ⟨w, hw, hal⟩ := alignedL_getElem fs vs h k d hk
  refine ⟨w, ?_, hal⟩
  simp only [List.nil_append, Nat.zero_add]
  show getSubL vs k [] = some w
  rw [getSubL_nil]
  exact hw

/-- References resolved for two different column names are
prefix-incomparable. -/
theorem mapLookup_paths_incomp (fs : List FieldDecl) (c₁ c₂ : String)
    (p₁ p₂ : Path)
    (h₁ : mapLookup (CollectFields fs [] 0 "" []) c₁ = some p₁)
    (h₂ : mapLookup (CollectFields fs [] 0 "" []) c₂ = some p₂)
    (hne : c₁ ≠ c₂) : PathIncomp p₁ p₂ := by
  have hm₁ := mapLookup_mem_pairs fs c₁ p₁ h₁
  have hm₂ := mapLookup_mem_pairs fs c₂ p₂ h₂
  have hpw := collectPairs_antichain fs [] 0 ""
  have hsym : Symmetric (fun e₁ e₂ : String × Path => PathIncomp e₁.2 e₂.2) :=
    fun _ _ hab => ⟨hab.2, hab.1⟩
  have hneq : (c₁, p₁) ≠ (c₂, p₂) := fun hh => hne (congrArg Prod.fst hh)
  exact List.Pairwise.forall hsym hpw hm₁ hm₂ hneq

/-- Embedding of `Wrapper.Get` (wrapper.go lines 46-73).  The row source is
either the error that `row.Scan` reports — pgx defers `QueryRow` errors,
including `pgx.ErrNoRows`, to `Scan` — or the row's cells, each tagged with
its result-set column name.  pgx's `Scan` assigns cells to the supplied
references positionally and never consults those names, but fails when the
counts differ. -/
def Get (dest : Dest) (row : Except GoError (List (String × Int))) :
    Except GoError Value :=
  match dest with
  | .notPtrToStruct => .error .destNotPtrToStruct
  | .ptrToStruct fs vs =>
    match GetColumnNames (.ptrToStruct fs vs) with
    | .error e => .error e
    | .ok columns =>
      match StructFieldsPointers (.ptrToStruct fs vs) columns with
      | .error e => .error e
      | .ok fields =>
        match row with
        | .error e => .error e
        | .ok cells =>
          if cells.length = fields.length then
            .ok (writeAll (.strct vs) (fields.zip (cells.map Prod.snd)))
          else
            .error .lenMismatch

/-- C4: `Get` validates the destination; derives the expected column names
from the destination's shape; resolves each derived name through the
name-to-field map (routing by tag/nesting-derived name, not by positional
field index); scans the row into those references in order; and returns any
scan error — including the distinguished no-rows error — to the caller
unchanged. -/
theorem get_routes_by_name_and_propagates_errors
    (fs : List FieldDecl) (vs : List Value)
    (h : alignedL fs vs = true)
    (hnodup : (CollectColumnNames fs "").Nodup) :
    (∀ row, Get .notPtrToStruct row = .error .destNotPtrToStruct) ∧
    (∀ e : GoError, Get (.ptrToStruct fs vs) (.error e) = .error e) ∧
    (∀ cells : List (String × Int),
      cells.length = (CollectColumnNames fs "").length →
      ∃ v2, Get (.ptrToStruct fs vs) (.ok cells) = .ok v2 ∧
        ∀ (k : Nat) (c : String) (cell : String × Int),
          (CollectColumnNames fs "")[k]? = some c → cells[k]? = some cell →
          ∃ p, mapLookup (CollectFields fs [] 0 "" []) c = some p ∧
            readAt v2 p = some cell.2) := by
  have hsome : ∀ c ∈ CollectColumnNames fs "",
      (mapLookup (CollectFields fs [] 0 "" []) c).isSome :=
    fun c hc => mapLookup_isSome_of_mem_names fs c hc
  obtain ⟨ps, hps, hlen⟩ := lookupAll_ok_of_all_some _ _ hsome
  have hfields : StructFieldsPointers (.ptrToStruct fs vs)
      (CollectColumnNames fs "") = .ok ps := hps
  refine ⟨fun _ => rfl, ?_, ?_⟩
  · intro e
    show (match StructFieldsPointers (.ptrToStruct fs vs)
        (CollectColumnNames fs "") with
      | .error e2 => Except.error e2
      | .ok _ => Except.error e) = Except.error e
    rw [hfields]
  · intro cells hcl
    have hclen : cells.length = ps.length := by rw [hcl, hlen]
    refine ⟨writeAll (.strct vs) (ps.zip (cells.map Prod.snd)), ?_, ?_⟩
    · show (match StructFieldsPointers (.ptrToStruct fs vs)
          (CollectColumnNames fs "") with
        | .error e2 => Except.error e2
        | .ok fields =>
          if cells.length = fields.length then
            Except.ok (writeAll (.strct vs) (fields.zip (cells.map Prod.snd)))
          else Except.error GoError.lenMismatch) =
        Except.ok (writeAll (.strct vs) (ps.zip (cells.map Prod.snd)))
      rw [hfields]
      show (if cells.length = ps.length then
          Except.ok (writeAll (Value.strct vs) (ps.zip (cells.map Prod.snd)))
        else Except.error GoError.lenMismatch) =
        Except.ok (writeAll (Value.strct vs) (ps.zip (cells.map Prod.snd)))
      rw [if_pos hclen]
    · intro k c cell hkc hkcell
      obtain ⟨p, hcp, hkp⟩ := lookupAll_spec _ _ _ hps k c hkc
      refine ⟨p, hcp, ?_⟩
      have hxk : (cells.map Prod.snd)[k]? = some cell.2 := by
        rw [List.getElem?_map, hkcell]
        rfl
      have hzip := zip_getElem? ps (cells.map Prod.snd) k p cell.2 hkp hxk
      have htarget : getSub (writeAll (.strct vs) (ps.zip (cells.map Prod.snd))) p =
          some (.int cell.2) := by
        refine writeAll_target _ _ k p cell.2 hzip ?_
          (mapLookup_live fs vs h c p hcp)
        intro j e hj hje
        have hjlt : j < (ps.zip (cells.map Prod.snd)).length :=
          (List.getElem?_eq_some.mp hje).1
        rw [List.length_zip, List.length_map] at hjlt
        have hjn : j < (CollectColumnNames fs "").length := by omega
        have hcj : ∃ cj, (CollectColumnNames fs "")[j]? = some cj :=
          ⟨_, List.getElem?_eq_getElem hjn⟩
        obtain ⟨cj, hcjeq⟩ := hcj
        obtain ⟨pj2, hcpj, hkpj⟩ := lookupAll_spec _ _ _ hps j cj hcjeq
        have hxj : ∃ xj, (cells.map Prod.snd)[j]? = some xj := by
          have hjc : j < (cells.map Prod.snd).length := by
            rw [List.length_map]
            omega
          exact ⟨_, List.getElem?_eq_getElem hjc⟩
        obtain ⟨xj, hxje⟩ := hxj
        have hzipj := zip_getElem? ps (cells.map Prod.snd) j pj2 xj hkpj hxje
        have he : e = (pj2, xj) := by
          rw [hje] at hzipj
          exact Option.some.inj hzipj
        rw [he]
        have hcne : cj ≠ c := by
          intro heq
          have hjn : (CollectColumnNames fs "")[j]? = some cj := hcjeq
          have hkn : (CollectColumnNames fs "")[k]? = some c := hkc
          rw [heq] at hjn
          obtain ⟨hjl, hjv⟩ := List.getElem?_eq_some.mp hjn
          obtain ⟨hkl, hkv⟩ := List.getElem?_eq_some.mp hkn
          have : (CollectColumnNames fs "").get ⟨j, hjl⟩ =
              (CollectColumnNames fs "").get ⟨k, hkl⟩ := by
            simp only [List.get_eq_getElem]
            rw [hjv, hkv]
          exact hj (congrArg Fin.val ((List.Nodup.get_inj_iff hnodup).mp this))
        exact mapLookup_paths_incomp fs cj c pj2 p hcpj hcp hcne
      simp [readAt, htarget]

/-- Witness for C4 at the concrete `exUser` destination: error propagation
(including no-rows) and by-name routing on a concrete row. -/
theorem get_routes_by_name_and_propagates_errors_witness :
    ((∀ row, Get .notPtrToStruct row = .error .destNotPtrToStruct) ∧
    (∀ e : GoError, Get (.ptrToStruct exUser exUserV) (.error e) = .error e) ∧
    (∀ cells : List (String × Int),
      cells.length = (CollectColumnNames exUser "").length →
      ∃ v2, Get (.ptrToStruct exUser exUserV) (.ok cells) = .ok v2 ∧
        ∀ (k : Nat) (c : String) (cell : String × Int),
          (CollectColumnNames exUser "")[k]? = some c → cells[k]? = some cell →
          ∃ p, mapLookup (CollectFields exUser [] 0 "" []) c = some p ∧
            readAt v2 p = some cell.2)) :=
  get_routes_by_name_and_propagates_errors exUser exUserV (by decide) (by decide)

/-- A live result set as `Select` observes it: the ordered column names from
`rows.FieldDescriptions()`, one entry per iterated row (the row's values in
result order, or the error its `rows.Scan` reports), and the
result-set-level error `rows.Err()` reports after iteration. -/
structure RowSet where
  columns : List String
  rows : List (Except GoError (List Int))
  finalErr : Option GoError

/-- The element type of the destination slice: a struct, a pointer to
struct, or anything else. -/
inductive ElemKind where
  | strctElem : List FieldDecl → ElemKind
  | ptrStructElem : List FieldDecl → ElemKind
  | badElem : ElemKind

/-- The `interface{}` destination argument of `Select`. -/
inductive SelectDest where
  | ptrToSlice : ElemKind → List Value → SelectDest
  | notPtrToSlice : SelectDest

/-- The slice contents the destination currently holds (empty for a
destination that is not a pointer to a slice). -/
def SelectDest.curSlice : SelectDest → List Value
  | .ptrToSlice _ vs => vs
  | .notPtrToSlice => []

/-- Observable outcome of a `Select` call: the returned error (none on
success), the final contents of the destination slice, and whether the
result set was closed (`defer rows.Close()` runs on every exit path after a
successful query; on a failed query no result set exists to close). -/
structure SelectResult where
  err : Option GoError
  slice : List Value
  closed : Bool

/-- The row loop of `Select` (wrapper.go lines 105-122): for each row, one
fresh zero instance, field location against the result set's actual
columns, scan, append; the first error stops iteration and is returned,
leaving the already-appended elements in place. -/
def selectLoop (fs : List FieldDecl) (columns : List String) :
    List (Except GoError (List Int)) → List Value → Option GoError × List Value
  | [], acc => (none, acc)
  | r :: rest, acc =>
    match StructFieldsPointers (.ptrToStruct fs (zeroFields fs)) columns with
    | .error e => (some e, acc)
    | .ok fields =>
      match r with
      | .error e => (some e, acc)
      | .ok vals =>
        if vals.length = fields.length then
          selectLoop fs columns rest
            (acc ++ [writeAll (.strct (zeroFields fs)) (fields.zip vals)])
        else (some .lenMismatch, acc)

/-- Embedding of `Wrapper.Select` (wrapper.go lines 76-129), mirroring the
source's control flow faithfully: the query is issued first; on query error
the function returns before `defer rows.Close()` is registered; otherwise
every exit path closes the result set.  The destination is validated only
after the query, then the actual column names are read from the result-set
metadata and the rows are iterated.  For a pointer-element slice the fresh
instance is appended by reference; value and reference elements hold equal
field values, which is what `Value` records. -/
def Select (dest : SelectDest) (q : Except GoError RowSet) : SelectResult :=
  match q with
  | .error e => { err := some e, slice := dest.curSlice, closed := false }
  | .ok rs =>
    match dest with
    | .notPtrToSlice =>
      { err := some .destNotPtrToSlice, slice := [], closed := true }
    | .ptrToSlice ek init =>
      match ek with
      | .badElem => { err := some .noMatchingType, slice := init, closed := true }
      | .strctElem fs | .ptrStructElem fs =>
        match selectLoop fs rs.columns rs.rows init with
        | (some e, out) => { err := some e, slice := out, closed := true }
        | (none, out) =>
          match rs.finalErr with
          | some e2 => { err := some e2, slice := out, closed := true }
          | none => { err := none, slice := out, closed := true }

/-- Processing a block of successful rows materializes one element per row
(appended in result order) and then continues with the remaining rows. -/
theorem selectLoop_ok_prefix (fs : List FieldDecl) (columns : List String)
    (ps : List Path)
    (hps : lookupAll (CollectFields fs [] 0 "" []) columns = .ok ps)
    (hlen : ps.length = columns.length)
    (rows₁ : List (Except GoError (List Int)))
    (hrows₁ : ∀ r ∈ rows₁, ∃ vals, r = .ok vals ∧ vals.length = columns.length) :
    ∃ out,
      (∀ (rows' : List (Except GoError (List Int))) (acc : List Value),
        selectLoop fs columns (rows₁ ++ rows') acc =
          selectLoop fs columns rows' (acc ++ out)) ∧
      out.length = rows₁.length ∧
      (∀ (r : Nat) (vals : List Int), rows₁[r]? = some (.ok vals) →
        out[r]? = some (writeAll (.strct (zeroFields fs)) (ps.zip vals))) := by
  have hfields : StructFieldsPointers (.ptrToStruct fs (zeroFields fs)) columns =
      .ok ps := hps
  induction rows₁ with
  | nil =>
    refine ⟨[], ?_, rfl, ?_⟩
    · intro rows' acc
      simp
    · intro r vals hr
      simp at hr
  | cons r0 rest ih =>
    obtain ⟨vals0, hr0, hvlen0⟩ := hrows₁ r0 (List.mem_cons_self _ _)
    obtain ⟨out, hout, hlen2, hpt⟩ :=
      ih (fun r hr => hrows₁ r (List.mem_cons_of_mem _ hr))
    refine ⟨writeAll (.strct (zeroFields fs)) (ps.zip vals0) :: out, ?_, by simp [hlen2], ?_⟩
    · intro rows' acc
      subst hr0
      rw [List.cons_append, selectLoop, hfields]
      have hcond : vals0.length = ps.length := by rw [hvlen0, hlen]
      show (if vals0.length = ps.length then
          selectLoop fs columns (rest ++ rows')
            (acc ++ [writeAll (Value.strct (zeroFields fs)) (ps.zip vals0)])
        else (some GoError.lenMismatch, acc)) =
        selectLoop fs columns rows'
          (acc ++ writeAll (Value.strct (zeroFields fs)) (ps.zip vals0) :: out)
      rw [if_pos hcond, hout]
      congr 1
      simp
    · intro r vals hr
      cases r with
      | zero =>
        subst hr0
        simp only [List.getElem?_cons_zero, Option.some.injEq, Except.ok.injEq] at hr
        rw [← hr]
        simp
      | succ r =>
        simp only [List.getElem?_cons_succ] at hr
        simpa using hpt r vals hr

/-- C5: if the result set's columns are a permutation of the destination's
expected (derived) columns, `Select` succeeds — no FieldNotFound — and each
row value lands in the field whose computed column name equals its column,
independent of column order. -/
theorem select_permutation_routes_by_name
    (fs : List FieldDecl) (init : List Value) (rs : RowSet)
    (hperm : List.Perm rs.columns (CollectColumnNames fs ""))
    (hnodup : (CollectColumnNames fs "").Nodup)
    (hrows : ∀ r ∈ rs.rows, ∃ vals, r = .ok vals ∧ vals.length = rs.columns.length)
    (hfinal : rs.finalErr = none) :
    ∃ out,
      Select (.ptrToSlice (.strctElem fs) init) (.ok rs) =
        { err := none, slice := init ++ out, closed := true } ∧
      out.length = rs.rows.length ∧
      (∀ (r : Nat) (vals : List Int), rs.rows[r]? = some (.ok vals) →
        ∀ (k : Nat) (c : String) (x : Int),
          rs.columns[k]? = some c → vals[k]? = some x →
          ∃ p elem, mapLookup (CollectFields fs [] 0 "" []) c = some p ∧
            out[r]? = some elem ∧ readAt elem p = some x) := by
  have hsome : ∀ c ∈ rs.columns,
      (mapLookup (CollectFields fs [] 0 "" []) c).isSome := by
    intro c hc
    exact mapLookup_isSome_of_mem_names fs c (hperm.mem_iff.mp hc)
  obtain ⟨ps, hps, hlen⟩ := lookupAll_ok_of_all_some _ _ hsome
  have hnodupc : rs.columns.Nodup := hperm.symm.nodup hnodup
  obtain ⟨out, hout, hlen2, hpt⟩ :=
    selectLoop_ok_prefix fs rs.columns ps hps hlen rs.rows hrows
  refine ⟨out, ?_, hlen2, ?_⟩
  · have hloop : selectLoop fs rs.columns rs.rows init = (none, init ++ out) := by
      have := hout [] init
      rw [List.append_nil] at this
      rw [this, selectLoop]
    show (match selectLoop fs rs.columns rs.rows init with
      | (some e, out2) =>
        ({ err := some e, slice := out2, closed := true } : SelectResult)
      | (none, out2) =>
        match rs.finalErr with
        | some e2 => ({ err := some e2, slice := out2, closed := true } : SelectResult)
        | none => ({ err := none, slice := out2, closed := true } : SelectResult)) =
      ({ err := none, slice := init ++ out, closed := true } : SelectResult)
    rw [hloop, hfinal]
  · intro r vals hr k c x hkc hkx
    have helem := hpt r vals hr
    have hvlen : vals.length = rs.columns.length := by
      obtain ⟨vals2, hv2, hvl2⟩ := hrows (.ok vals)
        (List.mem_iff_getElem?.mpr ⟨r, hr⟩)
      have : vals = vals2 := Except.ok.inj hv2
      rw [this]
      exact hvl2
    obtain ⟨p, hcp, hkp⟩ := lookupAll_spec _ _ _ hps k c hkc
    refine ⟨p, writeAll (.strct (zeroFields fs)) (ps.zip vals), hcp, helem, ?_⟩
    have hzip := zip_getElem? ps vals k p x hkp hkx
    have htarget : getSub (writeAll (.strct (zeroFields fs)) (ps.zip vals)) p =
        some (.int x) := by
      refine writeAll_target _ _ k p x hzip ?_
        (mapLookup_live fs (zeroFields fs) (alignedL_zeroFields fs) c p hcp)
      intro j e hj hje
      have hjlt : j < (ps.zip vals).length :=
        (List.getElem?_eq_some.mp hje).1
      rw [List.length_zip] at hjlt
      have hjn : j < rs.columns.length := by omega
      obtain ⟨cj, hcjeq⟩ : ∃ cj, rs.columns[j]? = some cj :=
        ⟨_, List.getElem?_eq_getElem hjn⟩
      obtain ⟨pj, hcpj, hkpj⟩ := lookupAll_spec _ _ _ hps j cj hcjeq
      obtain ⟨xj, hxje⟩ : ∃ xj, vals[j]? = some xj := by
        have hjv : j < vals.length := by omega
        exact ⟨_, List.getElem?_eq_getElem hjv⟩
      have hzipj := zip_getElem? ps vals j pj xj hkpj hxje
      have he : e = (pj, xj) := by
        rw [hje] at hzipj
        exact Option.some.inj hzipj
      rw [he]
      have hcne : cj ≠ c := by
        intro heq
        rw [heq] at hcjeq
        obtain ⟨hjl, hjv⟩ := List.getElem?_eq_some.mp hcjeq
        obtain ⟨hkl, hkv⟩ := List.getElem?_eq_some.mp hkc
        have hgeq : rs.columns.get ⟨j, hjl⟩ = rs.columns.get ⟨k, hkl⟩ := by
          simp only [List.get_eq_getElem]
          rw [hjv, hkv]
        exact hj (congrArg Fin.val ((List.Nodup.get_inj_iff hnodupc).mp hgeq))
      exact mapLookup_paths_incomp fs cj c pj p hcpj hcp hcne
    simp [readAt, htarget]

/-- Witness for C5: a permuted result set against `exUser`. -/
theorem select_permutation_routes_by_name_witness :
    ∃ out,
      Select (.ptrToSlice (.strctElem exUser) [])
          (.ok { columns := ["name", "id", "address_city", "address_street"],
                 rows := [.ok [10, 1, 30, 20]], finalErr := none }) =
        { err := none, slice := [] ++ out, closed := true } ∧
      out.length = [(.ok [10, 1, 30, 20] : Except GoError (List Int))].length ∧
      (∀ (r : Nat) (vals : List Int),
        [(.ok [10, 1, 30, 20] : Except GoError (List Int))][r]? = some (.ok vals) →
        ∀ (k : Nat) (c : String) (x : Int),
          ["name", "id", "address_city", "address_street"][k]? = some c →
          vals[k]? = some x →
          ∃ p elem, mapLookup (CollectFields exUser [] 0 "" []) c = some p ∧
            out[r]? = some elem ∧ readAt elem p = some x) :=
  select_permutation_routes_by_name exUser []
    { columns := ["name", "id", "address_city", "address_street"],
      rows := [.ok [10, 1, 30, 20]], finalErr := none }
    (by decide) (by decide)
    (by
      intro r hr
      simp only [List.mem_singleton] at hr
      subst hr
      exact ⟨[10, 1, 30, 20], rfl, by decide⟩)
    rfl

/-- C8: whichever of the three failure modes ends a `Select` invocation —
a row-scan error, a field-location error, or a post-iteration result-set
error (`rows.Err()`) — iteration stops at the first error, that error is
returned, and every record appended to the destination slice before the
failure remains appended (the partial slice is left as-is; `Select` is not
atomic), with the result set closed.  Field location depends only on the
destination type and the result columns, so when it fails it fails at the
first row, before anything is appended in this invocation; the
post-iteration error is reported only after every row has been appended. -/
theorem select_error_keeps_partial_appends
    (fs : List FieldDecl) (init : List Value) (rs : RowSet) :
    (∀ (rows₁ rows₂ : List (Except GoError (List Int))) (e : GoError)
        (ps : List Path),
      rs.rows = rows₁ ++ .error e :: rows₂ →
      lookupAll (CollectFields fs [] 0 "" []) rs.columns = .ok ps →
      ps.length = rs.columns.length →
      (∀ r ∈ rows₁, ∃ vals, r = .ok vals ∧ vals.length = rs.columns.length) →
      ∃ out, Select (.ptrToSlice (.strctElem fs) init) (.ok rs) =
        { err := some e, slice := init ++ out, closed := true } ∧
        out.length = rows₁.length ∧
        (∀ (r : Nat) (vals : List Int), rows₁[r]? = some (.ok vals) →
          out[r]? = some (writeAll (.strct (zeroFields fs)) (ps.zip vals)))) ∧
    (∀ (r0 : Except GoError (List Int)) (rest : List (Except GoError (List Int)))
        (e : GoError),
      rs.rows = r0 :: rest →
      lookupAll (CollectFields fs [] 0 "" []) rs.columns = .error e →
      Select (.ptrToSlice (.strctElem fs) init) (.ok rs) =
        { err := some e, slice := init, closed := true }) ∧
    (∀ (e : GoError) (ps : List Path),
      rs.finalErr = some e →
      lookupAll (CollectFields fs [] 0 "" []) rs.columns = .ok ps →
      ps.length = rs.columns.length →
      (∀ r ∈ rs.rows, ∃ vals, r = .ok vals ∧ vals.length = rs.columns.length) →
      ∃ out, Select (.ptrToSlice (.strctElem fs) init) (.ok rs) =
        { err := some e, slice := init ++ out, closed := true } ∧
        out.length = rs.rows.length ∧
        (∀ (r : Nat) (vals : List Int), rs.rows[r]? = some (.ok vals) →
          out[r]? = some (writeAll (.strct (zeroFields fs)) (ps.zip vals)))) := by
  refine ⟨?_, ?_, ?_⟩
  · intro rows₁ rows₂ e ps hsplit hps hlen hrows₁
    obtain ⟨out, hout, hl, hpt⟩ :=
      selectLoop_ok_prefix fs rs.columns ps hps hlen rows₁ hrows₁
    refine ⟨out, ?_, hl, hpt⟩
    have hfields : StructFieldsPointers (.ptrToStruct fs (zeroFields fs))
        rs.columns = .ok ps := hps
    have hloop : selectLoop fs rs.columns rs.rows init = (some e, init ++ out) := by
      rw [hsplit, hout (.error e :: rows₂) init, selectLoop, hfields]
    show (match selectLoop fs rs.columns rs.rows init with
      | (some e2, out2) =>
        ({ err := some e2, slice := out2, closed := true } : SelectResult)
      | (none, out2) =>
        match rs.finalErr with
        | some e2 => ({ err := some e2, slice := out2, closed := true } : SelectResult)
        | none => ({ err := none, slice := out2, closed := true } : SelectResult)) =
      ({ err := some e, slice := init ++ out, closed := true } : SelectResult)
    rw [hloop]
  · intro r0 rest e hrows hloc
    have hfields : StructFieldsPointers (.ptrToStruct fs (zeroFields fs))
        rs.columns = .error e := hloc
    have hloop : selectLoop fs rs.columns rs.rows init = (some e, init) := by
      rw [hrows, selectLoop, hfields]
    show (match selectLoop fs rs.columns rs.rows init with
      | (some e2, out2) =>
        ({ err := some e2, slice := out2, closed := true } : SelectResult)
      | (none, out2) =>
        match rs.finalErr with
        | some e2 => ({ err := some e2, slice := out2, closed := true } : SelectResult)
        | none => ({ err := none, slice := out2, closed := true } : SelectResult)) =
      ({ err := some e, slice := init, closed := true } : SelectResult)
    rw [hloop]
  · intro e ps hfin hps hlen hrows
    obtain ⟨out, hout, hl, hpt⟩ :=
      selectLoop_ok_prefix fs rs.columns ps hps hlen rs.rows hrows
    refine ⟨out, ?_, hl, hpt⟩
    have hloop : selectLoop fs rs.columns rs.rows init = (none, init ++ out) := by
      have happ := hout [] init
      rw [List.append_nil] at happ
      rw [happ, selectLoop]
    show (match selectLoop fs rs.columns rs.rows init with
      | (some e2, out2) =>
        ({ err := some e2, slice := out2, closed := true } : SelectResult)
      | (none, out2) =>
        match rs.finalErr with
        | some e2 => ({ err := some e2, slice := out2, closed := true } : SelectResult)
        | none => ({ err := none, slice := out2, closed := true } : SelectResult)) =
      ({ err := some e, slice := init ++ out, closed := true } : SelectResult)
    rw [hloop, hfin]

/-- Witness for C8, exercising all three failure modes against `exUser`:
a failing row after one good row (with a later row unprocessed), a
field-location failure on an unmapped column with one row pending, and a
post-iteration result-set error after one fully appended row. -/
theorem select_error_keeps_partial_appends_witness :
    (∃ out, Select (.ptrToSlice (.strctElem exUser) [])
        (.ok { columns := ["id", "name", "address_street", "address_city"],
               rows := [.ok [1, 2, 3, 4], .error (.scanFailure 5), .ok [9, 9, 9, 9]],
               finalErr := none }) =
      { err := some (.scanFailure 5), slice := [] ++ out, closed := true } ∧
      out.length = [(.ok [1, 2, 3, 4] : Except GoError (List Int))].length ∧
      (∀ (r : Nat) (vals : List Int),
        [(.ok [1, 2, 3, 4] : Except GoError (List Int))][r]? = some (.ok vals) →
        out[r]? = some (writeAll (.strct (zeroFields exUser))
          (([[0], [1], [2, 0], [2, 1]] : List Path).zip vals)))) ∧
    (Select (.ptrToSlice (.strctElem exUser) [.int 7])
        (.ok { columns := ["id", "extra_col"],
               rows := [.ok [1, 2]], finalErr := none }) =
      { err := some (.fieldNotFound "extra_col"), slice := [.int 7],
        closed := true }) ∧
    (∃ out, Select (.ptrToSlice (.strctElem exUser) [])
        (.ok { columns := ["id", "name", "address_street", "address_city"],
               rows := [.ok [1, 2, 3, 4]],
               finalErr := some (.rowsIterErr 3) }) =
      { err := some (.rowsIterErr 3), slice := [] ++ out, closed := true } ∧
      out.length = [(.ok [1, 2, 3, 4] : Except GoError (List Int))].length ∧
      (∀ (r : Nat) (vals : List Int),
        [(.ok [1, 2, 3, 4] : Except GoError (List Int))][r]? = some (.ok vals) →
        out[r]? = some (writeAll (.strct (zeroFields exUser))
          (([[0], [1], [2, 0], [2, 1]] : List Path).zip vals)))) :=
  ⟨(select_error_keeps_partial_appends exUser []
      { columns := ["id", "name", "address_street", "address_city"],
        rows := [.ok [1, 2, 3, 4], .error (.scanFailure 5), .ok [9, 9, 9, 9]],
        finalErr := none }).1
    [.ok [1, 2, 3, 4]] [.ok [9, 9, 9, 9]] (.scanFailure 5)
    [[0], [1], [2, 0], [2, 1]] rfl rfl rfl
    (by
      intro r hr
      simp only [List.mem_singleton] at hr
      subst hr
      exact ⟨[1, 2, 3, 4], rfl, by decide⟩),
   (select_error_keeps_partial_appends exUser [.int 7]
      { columns := ["id", "extra_col"],
        rows := [.ok [1, 2]], finalErr := none }).2.1
    (.ok [1, 2]) [] (.fieldNotFound "extra_col") rfl rfl,
   (select_error_keeps_partial_appends exUser []
      { columns := ["id", "name", "address_street", "address_city"],
        rows := [.ok [1, 2, 3, 4]],
        finalErr := some (.rowsIterErr 3) }).2.2
    (.rowsIterErr 3) [[0], [1], [2, 0], [2, 1]] rfl rfl rfl
    (by
      intro r hr
      simp only [List.mem_singleton] at hr
      subst hr
      exact ⟨[1, 2, 3, 4], rfl, by decide⟩)⟩

/-- C9 counterexample: with a destination that is not a pointer to a slice
and a failing query, `Select` returns the query error, not InvalidArgument —
the query is issued before the destination is validated, so validation is
not `Select`'s first step. -/
theorem select_query_precedes_validation_cex :
    Select .notPtrToSlice (.error (.queryFailed 7)) =
      { err := some (.queryFailed 7), slice := [], closed := false } ∧
    GoError.queryFailed 7 ≠ GoError.destNotPtrToSlice :=
  ⟨rfl, by decide⟩

/-- C9 amended: `Select` issues the query first (a query error is returned
even for invalid destinations); after a successful query it validates the
destination and returns InvalidArgument (or NoMatchingType for a bad
element type) before reading any result-set metadata — the outcome is the
same for every result set — with the result set closed. -/
theorem select_validates_after_query_before_metadata :
    (∀ (dest : SelectDest) (e : GoError),
      Select dest (.error e) =
        { err := some e, slice := dest.curSlice, closed := false }) ∧
    (∀ rs : RowSet,
      Select .notPtrToSlice (.ok rs) =
        { err := some .destNotPtrToSlice, slice := [], closed := true }) ∧
    (∀ (rs : RowSet) (init : List Value),
      Select (.ptrToSlice .badElem init) (.ok rs) =
        { err := some .noMatchingType, slice := init, closed := true }) :=
  ⟨fun _ _ => rfl, fun _ => rfl, fun _ _ => rfl⟩

/-- The lookup loop fails with FieldNotFound naming exactly the first
column that has no map entry. -/
theorem lookupAll_error_of_find? (m : FieldMap) (cols : List String) (c : String)
    (h : cols.find? (fun d => (mapLookup m d).isNone) = some c) :
    lookupAll m cols = .error (.fieldNotFound c) := by
  induction cols with
  | nil => simp at h
  | cons c0 cs ih =>
    rw [List.find?_cons] at h
    cases hm : mapLookup m c0 with
    | none =>
      rw [hm] at h
      simp only [Option.isNone_none, cond_true, Option.some.injEq] at h
      rw [lookupAll, hm, h]
    | some p =>
      rw [hm] at h
      simp only [Option.isNone_some, cond_false] at h
      rw [lookupAll, hm, ih h]
      rfl

/-- C7 counterexample: `Get` never looks result-set column names up in the
field map; a result set with the unmapped extra column `extra_col` makes
`Get` fail with the scan count-mismatch error, not with
FieldNotFound("extra_col"). -/
theorem get_extra_column_not_fieldNotFound_cex :
    Get (.ptrToStruct [FieldDecl.mk "ID" "id" false true .scalar] [.int 0])
        (.ok [("id", 1), ("extra_col", 2)]) = .error .lenMismatch ∧
    GoError.lenMismatch ≠ .fieldNotFound "extra_col" :=
  ⟨rfl, by decide⟩

/-- C7 amended: for `Select`, when the result set has at least one row, a
result-set column with no entry in the destination's column-to-field map
fails with FieldNotFound naming the first such column, with the destination
slice untouched and the result set still closed; `Get`, whose lookup keys
are the derived names (never the result-set columns), surfaces a column
mismatch as the scan count-mismatch error instead. -/
theorem select_fieldNotFound_closes_and_get_mismatch
    (fs : List FieldDecl) (init : List Value) (rs : RowSet) (c : String)
    (r0 : Except GoError (List Int)) (rest : List (Except GoError (List Int)))
    (hrows : rs.rows = r0 :: rest)
    (hfirst : rs.columns.find?
        (fun d => (mapLookup (CollectFields fs [] 0 "" []) d).isNone) = some c) :
    Select (.ptrToSlice (.strctElem fs) init) (.ok rs) =
      { err := some (.fieldNotFound c), slice := init, closed := true } ∧
    (∀ (vs : List Value) (cells : List (String × Int)),
      cells.length ≠ (CollectColumnNames fs "").length →
      Get (.ptrToStruct fs vs) (.ok cells) = .error .lenMismatch) := by
  constructor
  · have hfields : StructFieldsPointers (.ptrToStruct fs (zeroFields fs)) rs.columns =
        .error (.fieldNotFound c) :=
      lookupAll_error_of_find? _ _ _ hfirst
    have hloop : selectLoop fs rs.columns rs.rows init =
        (some (.fieldNotFound c), init) := by
      rw [hrows, selectLoop, hfields]
    show (match selectLoop fs rs.columns rs.rows init with
      | (some e2, out2) =>
        ({ err := some e2, slice := out2, closed := true } : SelectResult)
      | (none, out2) =>
        match rs.finalErr with
        | some e2 => ({ err := some e2, slice := out2, closed := true } : SelectResult)
        | none => ({ err := none, slice := out2, closed := true } : SelectResult)) =
      ({ err := some (.fieldNotFound c), slice := init, closed := true } : SelectResult)
    rw [hloop]
  · intro vs cells hne
    have hsome : ∀ d ∈ CollectColumnNames fs "",
        (mapLookup (CollectFields fs [] 0 "" []) d).isSome :=
      fun d hd => mapLookup_isSome_of_mem_names fs d hd
    obtain ⟨ps, hps, hlen⟩ := lookupAll_ok_of_all_some _ _ hsome
    have hfields : StructFieldsPointers (.ptrToStruct fs vs)
        (CollectColumnNames fs "") = .ok ps := hps
    show (match StructFieldsPointers (.ptrToStruct fs vs)
        (CollectColumnNames fs "") with
      | .error e2 => Except.error e2
      | .ok fields =>
        if cells.length = fields.length then
          Except.ok (writeAll (.strct vs) (fields.zip (cells.map Prod.snd)))
        else Except.error GoError.lenMismatch) = Except.error GoError.lenMismatch
    rw [hfields]
    show (if cells.length = ps.length then
        Except.ok (writeAll (Value.strct vs) (ps.zip (cells.map Prod.snd)))
      else Except.error GoError.lenMismatch) = Except.error GoError.lenMismatch
    rw [if_neg]
    rw [hlen]
    exact hne

/-- Witness for the amended C7: `extra_col` present in the result set. -/
theorem select_fieldNotFound_closes_and_get_mismatch_witness :
    Select (.ptrToSlice (.strctElem exUser) [.int 7])
        (.ok { columns := ["id", "extra_col"],
               rows := [.ok [1, 2]], finalErr := none }) =
      { err := some (.fieldNotFound "extra_col"), slice := [.int 7],
        closed := true } ∧
    (∀ (vs : List Value) (cells : List (String × Int)),
      cells.length ≠ (CollectColumnNames exUser "").length →
      Get (.ptrToStruct exUser vs) (.ok cells) = .error .lenMismatch) :=
  select_fieldNotFound_closes_and_get_mismatch exUser [.int 7]
    { columns := ["id", "extra_col"], rows := [.ok [1, 2]], finalErr := none }
    "extra_col" (.ok [1, 2]) [] rfl rfl

/-- Column-name construction of the variant walk (pgx_wrapper.go lines
669-679): falls back to the field name on an empty tag; no anonymous
exemption — the prefix is applied whenever it is nonempty. -/
def variantColName (pfx n tag : String) : String :=
  if pfx ≠ "" then pfx ++ "_" ++ (if tag = "" then n else tag)
  else (if tag = "" then n else tag)

mutual

/-- Embedding of the `collectFields` variant (pgx_wrapper.go lines 652-696),
which walks declarations together with the instance's current field values
and may mutate the instance.  A `"-"` tag always skips.  The descend
condition is `fieldValue.Kind() == reflect.Ptr && fieldValue.Elem().Kind()
== reflect.Struct` (or an anonymous value struct); per the `reflect`
documentation, `Value.Elem()` on a nil pointer returns the zero `Value`,
whose `Kind()` is `Invalid`, so a *nil* pointer-to-struct field fails the
condition and is inserted as a leaf — the `IsNil()` allocation inside the
branch can only be reached with a non-nil pointer and therefore never
fires.  A non-nil pointer-to-struct is descended into without allocation;
a non-anonymous value struct is inserted as a leaf.  Returns the updated
field values and the extended map. -/
def collectFields : List FieldDecl → List Value → Path → Nat → String →
    FieldMap → List Value × FieldMap
  | [], vs, _, _, _, m => (vs, m)
  | _ :: _, [], _, _, _, m => ([], m)
  | f :: rest, v :: vs, base, i, pfx, m =>
    let fm := collectFieldsStep f v (base ++ [i]) pfx m
    let rm := collectFields rest vs base (i + 1) pfx fm.2
    (fm.1 :: rm.1, rm.2)

/-- The loop body of the variant walk for one field at path `fpath`. -/
def collectFieldsStep : FieldDecl → Value → Path → String → FieldMap →
    Value × FieldMap
  | .mk n tag anon cs ty, v, fpath, pfx, m =>
    if cs = false then (v, m)
    else if tag = "-" then (v, m)
    else
      let colName := variantColName pfx n tag
      match ty, v with
      | .strct gs, .strct ws =>
        if anon = true then
          let r := collectFields gs ws fpath 0 colName m
          (.strct r.1, r.2)
        else (.strct ws, (colName, fpath) :: m)
      | .ptrStruct _, .ptrNil => (.ptrNil, (colName, fpath) :: m)
      | .ptrStruct gs, .ptrVal ws =>
        let r := collectFields gs ws fpath 0 colName m
        (.ptrVal r.1, r.2)
      | _, v2 => (v2, (colName, fpath) :: m)

end

/-- C6 counterexample: locating fields of a record whose pointer-to-record
field is currently nil leaves the pointer nil — no fresh instance is
allocated — and registers the nil pointer slot itself as the leaf for its
column.  (`reflect.Value.Elem()` of a nil pointer has Kind `Invalid`, so
the variant's descend-and-allocate branch is unreachable; the primary
locator does not descend pointers at all.) -/
theorem collectFields_nil_pointer_not_allocated_cex :
    collectFields
      [FieldDecl.mk "Address" "address" false true
        (.ptrStruct [FieldDecl.mk "Street" "street" false true .scalar])]
      [.ptrNil] [] 0 "" [] =
      ([.ptrNil], [("address", [0])]) ∧
    Value.ptrNil ≠ .ptrVal [.int 0] :=
  ⟨rfl, fun h => Value.noConfusion h⟩

/-- C6 amended: a nested record is never reached through a currently-null
reference.  In the variant locator a nil pointer-to-struct field fails the
descend condition and is inserted as a leaf, unchanged (no allocation); a
non-nil pointer-to-struct field is descended into without allocation; and
the primary locator (used by `Get`/`Select`) treats every pointer field as
a leaf. -/
theorem nil_pointer_is_leaf_not_allocated
    (n tag : String) (anon : Bool) (gs : List FieldDecl)
    (fpath : Path) (pfx : String) (m : FieldMap) (htag : tag ≠ "-") :
    collectFieldsStep (.mk n tag anon true (.ptrStruct gs)) .ptrNil fpath pfx m =
      (.ptrNil, (variantColName pfx n tag, fpath) :: m) ∧
    (∀ ws, collectFieldsStep (.mk n tag anon true (.ptrStruct gs)) (.ptrVal ws)
        fpath pfx m =
      ((.ptrVal (collectFields gs ws fpath 0 (variantColName pfx n tag) m).1),
        (collectFields gs ws fpath 0 (variantColName pfx n tag) m).2)) ∧
    collectFieldsField (.mk n tag anon true (.ptrStruct gs)) fpath pfx m =
      (mkColName pfx (.mk n tag anon true (.ptrStruct gs)), fpath) :: m := by
  refine ⟨?_, ?_, ?_⟩
  · simp [collectFieldsStep, htag]
  · intro ws
    simp [collectFieldsStep, htag]
  · simp [collectFieldsField, htag]

/-- Witness for the amended C6 at a concrete nil `*Address` field. -/
theorem nil_pointer_is_leaf_not_allocated_witness :
    collectFieldsStep
        (.mk "Address" "address" false true
          (.ptrStruct [FieldDecl.mk "Street" "street" false true .scalar]))
        .ptrNil [0] "" [] =
      (.ptrNil, (variantColName "" "Address" "address", [0]) :: []) ∧
    (∀ ws, collectFieldsStep
        (.mk "Address" "address" false true
          (.ptrStruct [FieldDecl.mk "Street" "street" false true .scalar]))
        (.ptrVal ws) [0] "" [] =
      ((.ptrVal (collectFields [FieldDecl.mk "Street" "street" false true .scalar]
          ws [0] 0 (variantColName "" "Address" "address") []).1),
        (collectFields [FieldDecl.mk "Street" "street" false true .scalar]
          ws [0] 0 (variantColName "" "Address" "address") []).2)) ∧
    collectFieldsField
        (.mk "Address" "address" false true
          (.ptrStruct [FieldDecl.mk "Street" "street" false true .scalar]))
        [0] "" [] =
      (mkColName ""
          (.mk "Address" "address" false true
            (.ptrStruct [FieldDecl.mk "Street" "street" false true .scalar])),
        [0]) :: [] :=
  nil_pointer_is_leaf_not_allocated "Address" "address" false
    [FieldDecl.mk "Street" "street" false true .scalar] [0] "" [] (by decide)

/-- A duplicated-column destination used in the C10 witness: two scalar
fields whose `db` tags are both `"x"`. -/
def exDup : List FieldDecl :=
  [.mk "A" "x" false true .scalar, .mk "B" "x" false true .scalar]

/-- C10: when several fields compute the same column name, the deriver emits
the name once per field (its multiplicity in the derived list equals the
number of emitting fields), while the locator's map silently resolves the
name to the reference inserted by the **last** field in the depth-first
declaration-order walk; every occurrence of the name in a requested column
list resolves, without error, to that same single reference. -/
theorem duplicate_column_last_field_wins (fs : List FieldDecl) (c : String) :
    ((CollectColumnNames fs "").count c =
      ((collectPairs fs [] 0 "").filter (fun e => e.1 == c)).length) ∧
    (mapLookup (CollectFields fs [] 0 "" []) c =
      (((collectPairs fs [] 0 "").filter (fun e => e.1 == c)).getLast?).map
        (fun e => e.2)) ∧
    (∀ (cols : List String) (ps : List Path),
      lookupAll (CollectFields fs [] 0 "" []) cols = .ok ps →
      ∀ (j k : Nat), cols[j]? = some c → cols[k]? = some c →
        ps[j]? = ps[k]?) := by
  refine ⟨?_, mapLookup_collectFields fs c, ?_⟩
  · rw [collectColumnNames_eq_pairs fs "" [] 0, List.count, List.countP_map,
      List.countP_eq_length_filter]
    rfl
  · intro cols ps hps j k hj hk
    obtain ⟨pj, hpj, hpj2⟩ := lookupAll_spec _ _ _ hps j c hj
    obtain ⟨pk, hpk, hpk2⟩ := lookupAll_spec _ _ _ hps k c hk
    rw [hpj2, hpk2]
    rw [hpj] at hpk
    rw [Option.some.inj hpk]

/-- Witness for C10 on the duplicated-tag destination `exDup`. -/
theorem duplicate_column_last_field_wins_witness :
    ((CollectColumnNames exDup "").count "x" =
      ((collectPairs exDup [] 0 "").filter (fun e => e.1 == "x")).length) ∧
    (mapLookup (CollectFields exDup [] 0 "" []) "x" =
      (((collectPairs exDup [] 0 "").filter (fun e => e.1 == "x")).getLast?).map
        (fun e => e.2)) ∧
    (([[1], [1]] : List Path)[0]? = ([[1], [1]] : List Path)[1]?) :=
  have h := duplicate_column_last_field_wins exDup "x"
  ⟨h.1, h.2.1, h.2.2 ["x", "x"] [[1], [1]] rfl 0 1 rfl rfl⟩

end PgxWrappy
